import Mathlib

set_option maxRecDepth 4000

/-!
Shallow embedding of the Pinterest scraping pipeline (src/main.py):
the multi-strategy markup extractor with deduplication
(get_pinterest_pins, lines 69-154), the pagination loop with early stop
and per-page error recovery (lines 49-171), the record enricher
(process_data, lines 173-205), the chunked CSV writer
(save_csv_chunks, lines 207-221), and the run-level composition in
main (lines 223-311).  Pure fragments become Lean functions; the
network transport is an explicit parameter; randomness is an explicit
indexed stream; dates follow the proleptic Gregorian calendar as in
Python's datetime/timedelta.
-/

/-- Python string slicing s[:n]: the first n characters of s. -/
def strTake (s : String) (n : Nat) : String :=
  ⟨s.data.take n⟩

/-- Python substring test (pat in s) on character lists. -/
def containsSub (pat s : String) : Bool :=
  (List.range (s.data.length + 1)).any fun i => pat.data.isPrefixOf (s.data.drop i)

/-- Python str.startswith on character lists. -/
def strStartsWith (s pre : String) : Bool :=
  pre.data.isPrefixOf s.data

/-- Python str.strip: drop leading and trailing whitespace. -/
def strTrim (s : String) : String :=
  ⟨((s.data.dropWhile Char.isWhitespace).reverse.dropWhile Char.isWhitespace).reverse⟩

/-- Python str.lower on character lists. -/
def strToLower (s : String) : String :=
  ⟨s.data.map Char.toLower⟩

/-- Python single-character str.replace: every occurrence of c becomes r. -/
def pyReplace (s : String) (c : Char) (r : String) : String :=
  ⟨(s.data.map fun ch => if ch = c then r.data else [ch]).flatten⟩

/-! ## Calendar dates (Python datetime.date semantics) -/

/-- A calendar date, as carried by Python's datetime objects. -/
structure Date where
  year : Nat
  month : Nat
  day : Nat
deriving DecidableEq, Repr

/-- Gregorian leap-year rule, as implemented by Python's calendar. -/
def isLeap (y : Nat) : Bool :=
  (y % 4 == 0 && y % 100 != 0) || y % 400 == 0

/-- Number of days in a month of a given year. -/
def daysInMonth (y m : Nat) : Nat :=
  if m = 2 then (if isLeap y then 29 else 28)
  else if m = 4 ∨ m = 6 ∨ m = 9 ∨ m = 11 then 30
  else 31

/-- The successor of a calendar date. -/
def nextDay (d : Date) : Date :=
  if d.day < daysInMonth d.year d.month then ⟨d.year, d.month, d.day + 1⟩
  else if d.month < 12 then ⟨d.year, d.month + 1, 1⟩
  else ⟨d.year + 1, 1, 1⟩

/-- Python date + timedelta(days = n). -/
def addDays (d : Date) (n : Nat) : Date :=
  nextDay^[n] d

/-- Zero-pad a number to two digits, as %m and %d do in strftime. -/
def pad2 (n : Nat) : String :=
  if n < 10 then "0" ++ toString n else toString n

/-- Zero-pad a year to four digits, as %Y does in strftime. -/
def pad4 (n : Nat) : String :=
  if n < 10 then "000" ++ toString n
  else if n < 100 then "00" ++ toString n
  else if n < 1000 then "0" ++ toString n
  else toString n

/-- Python strftime("%Y-%m-%d"). -/
def fmtDate (d : Date) : String :=
  pad4 d.year ++ "-" ++ pad2 d.month ++ "-" ++ pad2 d.day

/-! ## Parsed markup (the BeautifulSoup document the extractor walks) -/

/-- Element names the extraction strategies inspect. -/
inductive Tag where
  | img
  | div
  | a
  | other (name : String)
deriving DecidableEq, Repr

/-- The attributes read anywhere in get_pinterest_pins. -/
structure Attrs where
  src : Option String
  alt : Option String
  href : Option String
  dataTestId : Option String
  cls : Option String
  dataSrc : Option String
  dataLazySrc : Option String
deriving DecidableEq, Repr

/-- An attribute set with every attribute absent. -/
def emptyAttrs : Attrs :=
  ⟨none, none, none, none, none, none, none⟩

mutual
/-- A parsed markup node: an element with attributes and children, or text. -/
inductive Node where
  | elem (tag : Tag) (attrs : Attrs) (children : NodeList)
  | text (s : String)
/-- A sequence of sibling nodes. -/
inductive NodeList where
  | nil
  | cons (n : Node) (ns : NodeList)
end

mutual
/-- All elements of a subtree in document (preorder) order, self included;
this is the traversal order of BeautifulSoup's find_all. -/
def allElems : Node → List Node
  | Node.text _ => []
  | Node.elem t a cs => Node.elem t a cs :: allElemsL cs
/-- All elements under a node sequence in document order. -/
def allElemsL : NodeList → List Node
  | NodeList.nil => []
  | NodeList.cons n ns => allElems n ++ allElemsL ns
end

/-- Name of a tag as it appears in serialized markup. -/
def tagName : Tag → String
  | Tag.img => "img"
  | Tag.div => "div"
  | Tag.a => "a"
  | Tag.other s => s

/-- Render one optional attribute. -/
def optAttr (name : String) : Option String → String
  | none => ""
  | some v => " " ++ name ++ "=\"" ++ v ++ "\""

/-- Render an attribute set. -/
def attrsStr (a : Attrs) : String :=
  optAttr "src" a.src ++ optAttr "alt" a.alt ++ optAttr "href" a.href ++
  optAttr "data-test-id" a.dataTestId ++ optAttr "class" a.cls ++
  optAttr "data-src" a.dataSrc ++ optAttr "data-lazy-src" a.dataLazySrc

mutual
/-- Serialized structural representation of a node: the embedding of
Python's str(pin) used as the deduplication key (line 98). -/
def serialize : Node → String
  | Node.text s => s
  | Node.elem t a cs =>
      "<" ++ tagName t ++ attrsStr a ++ ">" ++ serializeL cs ++ "</" ++ tagName t ++ ">"
/-- Serialization of a node sequence. -/
def serializeL : NodeList → String
  | NodeList.nil => ""
  | NodeList.cons n ns => serialize n ++ serializeL ns
end

mutual
/-- The text fragments of a subtree in document order. -/
def nodeTexts : Node → List String
  | Node.text s => [s]
  | Node.elem _ _ cs => nodeTextsL cs
/-- The text fragments under a node sequence. -/
def nodeTextsL : NodeList → List String
  | NodeList.nil => []
  | NodeList.cons n ns => nodeTexts n ++ nodeTextsL ns
end

/-- BeautifulSoup get_text(strip=True): stripped text fragments joined. -/
def getTextStrip (n : Node) : String :=
  String.join ((nodeTexts n).map strTrim)

/-- Strategy 1 predicate: an img element carrying a src attribute (line 75). -/
def isImgWithSrc : Node → Bool
  | Node.elem Tag.img a _ => a.src.isSome
  | _ => false

/-- Strategy 2 predicate: a div whose data-test-id attribute is "pin" (line 80). -/
def isPinContainer : Node → Bool
  | Node.elem Tag.div a _ => a.dataTestId == some "pin"
  | _ => false

/-- Strategy 3 predicate: a div whose class value contains "pin",
case-insensitively (line 85). -/
def hasPinClass : Node → Bool
  | Node.elem Tag.div a _ =>
      match a.cls with
      | some c => containsSub "pin" (strToLower c)
      | none => false
  | _ => false

/-- Strategy 4 predicate: an anchor whose href contains "/pin/" (line 90). -/
def isPinLink : Node → Bool
  | Node.elem Tag.a a _ =>
      match a.href with
      | some h => containsSub "/pin/" h
      | none => false
  | _ => false

/-- The concatenated raw findings of the four strategies, in the order the
source extends the pins list (lines 74-92): strategy 1 before 2 before 3
before 4. -/
def stratPins (soup : NodeList) : List Node :=
  (allElemsL soup).filter isImgWithSrc ++ (allElemsL soup).filter isPinContainer ++
  (allElemsL soup).filter hasPinClass ++ (allElemsL soup).filter isPinLink

/-- The deduplication loop of lines 95-101: keep a pin when its serialized
form has not been seen, recording each kept serialization. -/
def dedupAux (seen : List String) : List Node → List Node
  | [] => []
  | p :: ps =>
      if serialize p ∈ seen then dedupAux seen ps
      else p :: dedupAux (serialize p :: seen) ps

/-- Deduplicate pins by serialized representation, first occurrence kept. -/
def dedupBySer (l : List Node) : List Node :=
  dedupAux [] l

/-- Spec-side description of deduplication, written from the specification:
a raw match is kept iff no earlier raw match (across the whole combined
list) has an identical serialized representation, and kept matches stay in
first-seen order. -/
def firstSeenFrom (prev : List Node) : List Node → List Node
  | [] => []
  | x :: xs =>
      if ∃ y ∈ prev, serialize y = serialize x then firstSeenFrom (prev ++ [x]) xs
      else x :: firstSeenFrom (prev ++ [x]) xs

/-- Spec-side deduplication over a whole list. -/
def firstSeenFilter (l : List Node) : List Node :=
  firstSeenFrom [] l

/-- Is this element an img tag (the pin.find("img") predicate)? -/
def isImgTag : Node → Bool
  | Node.elem Tag.img _ _ => true
  | _ => false

/-- The attribute set of a node (elements only). -/
def attrsOf : Node → Attrs
  | Node.elem _ a _ => a
  | Node.text _ => emptyAttrs

/-- pin.find("img"): the first img element among descendants,
document order. -/
def findImgIn : Node → Option Node
  | Node.elem _ _ cs => (allElemsL cs).find? isImgTag
  | Node.text _ => none

/-- The per-pin (title, img_src) reduction of lines 112-135. -/
def extractTitleImg (pin : Node) : String × String :=
  match pin with
  | Node.elem Tag.img a _ => (a.alt.getD "", a.src.getD "")
  | Node.elem Tag.div a _ =>
      match findImgIn pin with
      | some t => ((attrsOf t).alt.getD "", (attrsOf t).src.getD "")
      | none =>
          let ds := a.dataSrc.getD ""
          (strTake (getTextStrip pin) 100, if ds = "" then a.dataLazySrc.getD "" else ds)
  | Node.elem Tag.a _ _ =>
      match findImgIn pin with
      | some t => ((attrsOf t).alt.getD "", (attrsOf t).src.getD "")
      | none => (strTake (getTextStrip pin) 100, "")
  | _ => ("", "")

/-- Title clean-up of lines 137-141: an empty raw title is replaced by the
synthesized "{keyword} idea {len(results) + i + 1}", a non-empty one is
stripped. -/
def finalTitle (keyword : String) (runningCount i : Nat) (rawTitle : String) : String :=
  if rawTitle = "" then keyword ++ " idea " ++ toString (runningCount + i + 1)
  else strTrim rawTitle

/-- A scraped result dict with keys "title" and "img"; a missing key is
modelled as none (accessing it raises KeyError in the source). -/
structure RawItem where
  title : Option String
  img : Option String
deriving DecidableEq, Repr

/-- The per-pin candidate construction with the image-URL guard of
lines 143-148: the pin at local index i is emitted iff its image source is
non-empty and starts with "http" or "//". -/
def pinToCandidate (keyword : String) (runningCount i : Nat) (pin : Node) : Option RawItem :=
  let ti := extractTitleImg pin
  if ti.2 ≠ "" ∧ (strStartsWith ti.2 "http" = true ∨ strStartsWith ti.2 "//" = true) then
    some ⟨some (finalTitle keyword runningCount i ti.1), some ti.2⟩
  else none

/-- The whole single-page extraction of lines 69-148: run the four
strategies, deduplicate by serialized form, then map each surviving pin
(with its 0-based position) through the guarded candidate construction. -/
def extract (soup : NodeList) (keyword : String) (runningCount : Nat) : List RawItem :=
  ((dedupBySer (stratPins soup)).enum).filterMap fun p =>
    pinToCandidate keyword runningCount p.1 p.2

/-! ## Pagination driver (get_pinterest_pins, lines 44-171) -/

/-- Outcome of one transport request: a raised network error, or a
response with a status code and a parsed body. -/
inductive FetchResult where
  | netError
  | ok (status : Nat) (body : NodeList)

/-- The hard-coded target pin count of line 47. -/
def targetPins : Nat := 200

/-- Candidates contributed by one page (lines 62-148): a network error or
a non-200 status contributes nothing; otherwise the page body goes through
the extractor with the current running total. -/
def pageItems (keyword : String) (fetch : Nat → FetchResult) (page runningCount : Nat) :
    List RawItem :=
  match fetch page with
  | FetchResult.netError => []
  | FetchResult.ok status body =>
      if status ≠ 200 then [] else extract body keyword runningCount

/-- The page loop of lines 49-168 over a list of remaining page numbers,
threading the accumulated results; the first component is the final result
list, the second the pages for which a transport request was issued.  The
early-stop check of lines 50-52 runs before each fetch. -/
def collectAux (keyword : String) (fetch : Nat → FetchResult) :
    List Nat → List RawItem → List RawItem × List Nat
  | [], acc => (acc, [])
  | p :: ps, acc =>
      if targetPins ≤ acc.length then (acc, [])
      else
        let rest := collectAux keyword fetch ps (acc ++ pageItems keyword fetch p acc.length)
        (rest.1, p :: rest.2)

/-- get_pinterest_pins: run the page loop over pages 1..numPages starting
from an empty accumulator. -/
def get_pinterest_pins (keyword : String) (fetch : Nat → FetchResult) (numPages : Nat) :
    List RawItem × List Nat :=
  collectAux keyword fetch (List.range' 1 numPages) []

/-! ## Record enricher (process_data, lines 173-205) -/

/-- One output row as assembled at lines 192-200. -/
structure Record where
  title : String
  description : String
  image_url : String
  scheduled_date : String
  keyword : String
  board : String
  domain_link : String
deriving DecidableEq, Repr

/-- A record whose fields are all empty, used as a lookup default. -/
def emptyRecord : Record :=
  ⟨"", "", "", "", "", "", ""⟩

/-- The keyword slug of line 190: three successive str.replace calls. -/
def clean_keyword (kw : String) : String :=
  pyReplace (pyReplace (pyReplace kw ' ' "-") '&' "and") '+' "plus"

/-- The derived link of line 199. -/
def domain_link (domain keyword : String) (i : Nat) : String :=
  "https://" ++ domain ++ "/" ++ clean_keyword keyword ++ "-" ++ toString (i + 1)

/-- Spec-side slug, written from the specification's words: every space
becomes a hyphen, every ampersand becomes "and", every plus sign becomes
"plus", all other characters unchanged, in one simultaneous pass. -/
def slugSpec (kw : String) : String :=
  ⟨(kw.data.map fun ch =>
      if ch = ' ' then ['-']
      else if ch = '&' then ['a', 'n', 'd']
      else if ch = '+' then ['p', 'l', 'u', 's']
      else [ch]).flatten⟩

/-- The loop body of lines 182-203 for the item at loop index i: the two
random draws are read from explicit indexed streams em and rnd; a missing
"title" or "img" key raises KeyError, which the except branch turns into a
skip, modelled as none. -/
def enrichItem (keyword board domain : String) (startDate : Date)
    (em : Nat → String) (rnd : Nat → Nat) (i : Nat) (item : RawItem) : Option Record :=
  match item.title, item.img with
  | some t, some img =>
      some { title := t ++ " " ++ em i ++ " " ++ toString (rnd i),
             description := keyword ++ " inspiration " ++ toString (i + 1),
             image_url := img,
             scheduled_date := fmtDate (addDays startDate i),
             keyword := keyword,
             board := board,
             domain_link := domain_link domain keyword i }
  | _, _ => none

/-- process_data: None on empty input (lines 175-177), otherwise the
enumerate loop of lines 182-203 with per-item failures skipped. -/
def process_data (results : List RawItem) (keyword board domain : String)
    (startDate : Date) (em : Nat → String) (rnd : Nat → Nat) : Option (List Record) :=
  if results.isEmpty then none
  else some (results.enum.filterMap fun p =>
    enrichItem keyword board domain startDate em rnd p.1 p.2)

/-! ## Chunk writer (save_csv_chunks, lines 207-221) -/

/-- The chunk list comprehension of line 210: df[i:i+k] for i in
range(0, len(df), k).  A zero step raises ValueError in the source, which
the except branch turns into zero chunks written. -/
def chunkList : List Record → Nat → List (List Record)
  | [], _ => []
  | _ :: _, 0 => []
  | x :: xs, k + 1 =>
      (x :: xs).take (k + 1) :: chunkList ((x :: xs).drop (k + 1)) (k + 1)
termination_by l _ => l.length
decreasing_by
  simp only [List.drop_succ_cons, List.length_cons, List.length_drop]
  omega

/-- save_csv_chunks returns the number of chunk files written (line 217). -/
def save_csv_chunks (records : List Record) (rowsPerFile : Nat) : Nat :=
  (chunkList records rowsPerFile).length

/-! ## Run-level composition (main, lines 223-311) -/

/-- The placeholder sample data of lines 277-280, substituted by main when
no pins were scraped. -/
def sample_results (keyword : String) : List RawItem :=
  (List.range 10).map fun i =>
    ⟨some (keyword ++ " sample idea " ++ toString (i + 1)),
     some "https://via.placeholder.com/300x300"⟩

/-- The number of output artifacts produced by one run of main (lines
247-303): clamp the page and row arguments, scrape, substitute sample data
on an empty scrape, enrich, and chunk; a None or empty enrichment result
aborts with no artifacts. -/
def runArtifacts (keyword board domain : String) (startDate : Date)
    (fetch : Nat → FetchResult) (pagesArg rowsArg : Nat)
    (em : Nat → String) (rnd : Nat → Nat) : Nat :=
  let numPages := max 10 (min pagesArg 50)
  let rowsPerFile := max 50 (min rowsArg 1000)
  let scraped := (get_pinterest_pins keyword fetch numPages).1
  let results := if scraped.isEmpty then sample_results keyword else scraped
  match process_data results keyword board domain startDate em rnd with
  | none => 0
  | some data => if data.isEmpty then 0 else save_csv_chunks data rowsPerFile

/-! ## Concrete inputs for the end-to-end scenario -/

/-- Four hundred fifty valid candidates for the end-to-end scenario. -/
def candidates450 : List RawItem :=
  (List.range 450).map fun i =>
    ⟨some ("home decor find " ++ toString (i + 1)), some "https://example.com/a.jpg"⟩

/-- The record list the enricher produces from those 450 candidates with
start date 2024-01-01 (decorator stream fixed to the empty adornment and
the random stream fixed to 7). -/
def records450 : List Record :=
  (process_data candidates450 "home decor" "decor board" "example.com" ⟨2024, 1, 1⟩
    (fun _ => "") (fun _ => 7)).getD []

/-! ## Helper lemmas about chunking -/

/-- Unfolding lemma: a non-empty list with a positive chunk size yields the
leading chunk followed by the chunks of the remainder. -/
theorem chunkList_cons (l : List Record) (k : Nat) (h0 : l ≠ []) (hk : k ≠ 0) :
    chunkList l k = l.take k :: chunkList (l.drop k) k := by
  match l, k with
  | [], _ => exact absurd rfl h0
  | _ :: _, 0 => exact absurd rfl hk
  | x :: xs, k + 1 => rw [chunkList]

/-- Concatenating the chunks restores the list, for a positive chunk size. -/
theorem chunkList_flatten (l : List Record) (k : Nat) (hk : k ≠ 0) :
    (chunkList l k).flatten = l := by
  induction l, k using chunkList.induct with
  | case1 k => simp [chunkList]
  | case2 x xs => exact absurd rfl hk
  | case3 x xs k ih =>
      rw [chunkList, List.flatten_cons, ih (Nat.succ_ne_zero k)]
      exact List.take_append_drop _ _

/-- Every chunk has at most the requested size. -/
theorem chunkList_le (l : List Record) (k : Nat) (c : List Record)
    (hc : c ∈ chunkList l k) : c.length ≤ k := by
  induction l, k using chunkList.induct with
  | case1 k => simp [chunkList] at hc
  | case2 x xs => simp [chunkList] at hc
  | case3 x xs k ih =>
      rw [chunkList] at hc
      rcases List.mem_cons.mp hc with h | h
      · subst h
        rw [List.length_take]
        omega
      · exact ih h

/-- Every chunk except the last is full. -/
theorem chunkList_full (l : List Record) (k : Nat) :
    ∀ c ∈ (chunkList l k).dropLast, c.length = k := by
  induction l, k using chunkList.induct with
  | case1 k => simp [chunkList]
  | case2 x xs => simp [chunkList]
  | case3 x xs k ih =>
      intro c hc
      rw [chunkList] at hc
      cases hrest : chunkList ((x :: xs).drop (k + 1)) (k + 1) with
      | nil => rw [hrest, List.dropLast_single] at hc; simp at hc
      | cons r rs =>
          rw [hrest, List.dropLast_cons₂] at hc
          rcases List.mem_cons.mp hc with h | h
          · subst h
            have hdrop : (x :: xs).drop (k + 1) ≠ [] := by
              intro hempty
              rw [hempty] at hrest
              simp [chunkList] at hrest
            have hlen : k + 1 ≤ (x :: xs).length := by
              by_contra hcc
              exact hdrop (List.drop_eq_nil_of_le (by omega))
            rw [List.length_take]
            omega
          · exact ih c (by rw [hrest]; exact h)

/-- A non-empty list no longer than the chunk size forms a single chunk. -/
theorem chunkList_single (l : List Record) (k : Nat) (h0 : l ≠ []) (hk : l.length ≤ k) :
    chunkList l k = [l] := by
  match l, k with
  | [], _ => exact absurd rfl h0
  | x :: xs, 0 => simp at hk
  | x :: xs, k + 1 =>
      rw [chunkList, List.take_of_length_le hk, List.drop_eq_nil_of_le hk]
      simp [chunkList]

/-! ## Helper lemmas about slugging -/

/-- One single-character replacement pass on a character list. -/
def repl (c : Char) (r : List Char) (l : List Char) : List Char :=
  (l.map fun ch => if ch = c then r else [ch]).flatten

/-- pyReplace is repl on the underlying character lists. -/
theorem pyReplace_eq_repl (s : String) (c : Char) (r : String) :
    pyReplace s c r = ⟨repl c r.data s.data⟩ := rfl

/-- repl distributes over list concatenation. -/
theorem repl_append (c : Char) (r : List Char) (a b : List Char) :
    repl c r (a ++ b) = repl c r a ++ repl c r b := by
  simp [repl]

/-- The three successive replacement passes of the source equal the
simultaneous per-character substitution of the specification. -/
theorem repl_chain (l : List Char) :
    repl '+' "plus".data (repl '&' "and".data (repl ' ' "-".data l)) =
      (l.map fun ch =>
        if ch = ' ' then ['-']
        else if ch = '&' then ['a', 'n', 'd']
        else if ch = '+' then ['p', 'l', 'u', 's']
        else [ch]).flatten := by
  induction l with
  | nil => rfl
  | cons ch t ih =>
      have hhead : repl ' ' "-".data (ch :: t) =
          (if ch = ' ' then "-".data else [ch]) ++ repl ' ' "-".data t := by
        simp [repl]
      rw [hhead, repl_append, repl_append, List.map_cons, List.flatten_cons, ih]
      congr 1
      by_cases h1 : ch = ' '
      · subst h1; decide
      · by_cases h2 : ch = '&'
        · subst h2; decide
        · by_cases h3 : ch = '+'
          · subst h3; decide
          · simp [repl, h1, h2, h3]

/-- The source slug equals the specification slug. -/
theorem clean_keyword_eq_slugSpec (kw : String) : clean_keyword kw = slugSpec kw := by
  show pyReplace (pyReplace (pyReplace kw ' ' "-") '&' "and") '+' "plus" = slugSpec kw
  rw [pyReplace_eq_repl, pyReplace_eq_repl, pyReplace_eq_repl]
  exact congrArg String.mk (repl_chain kw.data)

/-! ## Helper lemmas about the page loop -/

/-- Once the accumulated count has reached the target, the loop neither
fetches another page nor changes the results. -/
theorem collectAux_stop (keyword : String) (fetch : Nat → FetchResult)
    (ps : List Nat) (acc : List RawItem) (h : targetPins ≤ acc.length) :
    collectAux keyword fetch ps acc = (acc, []) := by
  cases ps with
  | nil => rfl
  | cons p ps => simp [collectAux, h]

/-- A transport that always raises leaves the accumulator unchanged. -/
theorem collectAux_allErr (keyword : String) (fetch : Nat → FetchResult)
    (hf : ∀ p, fetch p = FetchResult.netError) :
    ∀ (ps : List Nat) (acc : List RawItem), (collectAux keyword fetch ps acc).1 = acc := by
  intro ps
  induction ps with
  | nil => intro acc; rfl
  | cons p ps ih =>
      intro acc
      by_cases h : targetPins ≤ acc.length
      · simp [collectAux, h]
      · simp [collectAux, h, pageItems, hf p, ih]

/-! ## Claim C1: chunking partitions exactly -/

/-- C1: for every record list and every positive chunk size, the chunk
writer's chunks concatenate back to the original record sequence with no
loss, gap, or duplication; every chunk has size at most the chunk size;
and every chunk except possibly the last is exactly full.  (A chunk size
of zero raises ValueError in the source, which save_csv_chunks turns into
zero chunks written; the CLI clamps the size to at least 50.) -/
theorem c1_chunk_partition (l : List Record) (k : Nat) (hk : 0 < k) :
    (chunkList l k).flatten = l ∧
    (∀ c ∈ chunkList l k, c.length ≤ k) ∧
    (∀ c ∈ (chunkList l k).dropLast, c.length = k) :=
  ⟨chunkList_flatten l k (by omega), fun c hc => chunkList_le l k c hc, chunkList_full l k⟩

/-- Witness for C1 at a concrete record list and chunk size. -/
theorem c1_chunk_partition_witness :
    (chunkList [emptyRecord, emptyRecord, emptyRecord] 2).flatten =
      [emptyRecord, emptyRecord, emptyRecord] :=
  (c1_chunk_partition [emptyRecord, emptyRecord, emptyRecord] 2 (by omega)).1

/-! ## Claim C6: deterministic derived link -/

/-- C6: the derived link is a pure function of (domain, keyword, i) - the
same input always yields the same link - and equals
https://{domain}/{slug}-{i+1} where the slug replaces every space with a
hyphen, every ampersand with "and", and every plus sign with "plus". -/
theorem c6_domain_link_slug (domain keyword : String) (i : Nat) :
    domain_link domain keyword i =
      "https://" ++ domain ++ "/" ++ slugSpec keyword ++ "-" ++ toString (i + 1) := by
  unfold domain_link
  rw [clean_keyword_eq_slugSpec]

/-! ## Claim C7: early stop of the page loop -/

/-- C7: whenever the accumulated candidate count has reached the target,
the page loop stops: none of the remaining pages is fetched and the
results are returned as they stand. -/
theorem c7_early_stop (keyword : String) (fetch : Nat → FetchResult)
    (ps : List Nat) (acc : List RawItem) (h : targetPins ≤ acc.length) :
    collectAux keyword fetch ps acc = (acc, []) :=
  collectAux_stop keyword fetch ps acc h

/-- Witness for C7 with 200 accumulated items and two pages remaining. -/
theorem c7_early_stop_witness :
    collectAux "kw" (fun _ => FetchResult.netError) [7, 8]
      (List.replicate 200 ⟨some "t", some "https://a"⟩) =
      (List.replicate 200 ⟨some "t", some "https://a"⟩, []) :=
  c7_early_stop "kw" (fun _ => FetchResult.netError) [7, 8]
    (List.replicate 200 ⟨some "t", some "https://a"⟩)
    (by rw [List.length_replicate]; exact Nat.le.refl)

/-! ## Claim C8: per-page failures contribute nothing and never abort -/

/-- C8: a network-layer failure or a non-200 status on a page makes that
page contribute zero candidates, and the loop continues with the remaining
pages producing the same results as if the failed page were absent; the
run is never aborted (the loop is total and returns normally). -/
theorem c8_page_failure (keyword : String) (fetch : Nat → FetchResult) (p : Nat)
    (ps : List Nat) (acc : List RawItem) (n : Nat)
    (h : fetch p = FetchResult.netError ∨
      ∃ s body, fetch p = FetchResult.ok s body ∧ s ≠ 200) :
    pageItems keyword fetch p n = [] ∧
    (collectAux keyword fetch (p :: ps) acc).1 = (collectAux keyword fetch ps acc).1 := by
  have hp : ∀ m, pageItems keyword fetch p m = [] := by
    intro m
    rcases h with h | ⟨s, body, h, hs⟩
    · simp [pageItems, h]
    · simp [pageItems, h, hs]
  refine ⟨hp n, ?_⟩
  by_cases ht : targetPins ≤ acc.length
  · rw [collectAux_stop keyword fetch (p :: ps) acc ht, collectAux_stop keyword fetch ps acc ht]
  · simp [collectAux, ht, hp]

/-- Witness for C8 at a page returning status 404. -/
theorem c8_page_failure_witness :
    pageItems "kw" (fun _ => FetchResult.ok 404 NodeList.nil) 3 0 = [] ∧
    (collectAux "kw" (fun _ => FetchResult.ok 404 NodeList.nil) [3, 4] []).1 =
      (collectAux "kw" (fun _ => FetchResult.ok 404 NodeList.nil) [4] []).1 :=
  c8_page_failure "kw" (fun _ => FetchResult.ok 404 NodeList.nil) 3 [4] [] 0
    (Or.inr ⟨404, NodeList.nil, rfl, by omega⟩)

/-! ## Helper lemmas about the enricher -/

/-- The scheduled date of an emitted record comes from the loop index the
record was enriched at. -/
theorem enrichItem_date (kw b d : String) (D : Date) (em : Nat → String) (rnd : Nat → Nat)
    (j : Nat) (it : RawItem) (r : Record)
    (h : enrichItem kw b d D em rnd j it = some r) :
    r.scheduled_date = fmtDate (addDays D j) := by
  cases it with
  | mk t g =>
      cases t with
      | none => simp [enrichItem] at h
      | some t0 =>
          cases g with
          | none => simp [enrichItem] at h
          | some g0 =>
              simp only [enrichItem, Option.some.injEq] at h
              subst h
              rfl

/-- Every record emitted by the enumerate-and-filter loop comes from some
original input index, at the date offset of that original index. -/
theorem enrich_filterMap_mem (kw b d : String) (D : Date) (em : Nat → String)
    (rnd : Nat → Nat) :
    ∀ (items : List RawItem) (n : Nat) (r : Record),
      r ∈ (items.enumFrom n).filterMap
        (fun p => enrichItem kw b d D em rnd p.1 p.2) →
      ∃ j, ∃ hj : j < items.length,
        enrichItem kw b d D em rnd (n + j) (items.get ⟨j, hj⟩) = some r := by
  intro items
  induction items with
  | nil => intro n r hr; simp at hr
  | cons x xs ih =>
      intro n r hr
      rw [List.enumFrom_cons, List.filterMap_cons] at hr
      cases he : enrichItem kw b d D em rnd n x with
      | none =>
          rw [he] at hr
          obtain ⟨j, hj, h⟩ := ih (n + 1) r hr
          refine ⟨j + 1, by simpa using Nat.succ_lt_succ hj, ?_⟩
          have harith : n + 1 + j = n + (j + 1) := by omega
          rw [harith] at h
          simpa using h
      | some r0 =>
          rw [he] at hr
          rcases List.mem_cons.mp hr with h | h
          · subst h
            exact ⟨0, by simp, by simpa using he⟩
          · obtain ⟨j, hj, hh⟩ := ih (n + 1) r h
            refine ⟨j + 1, by simpa using Nat.succ_lt_succ hj, ?_⟩
            have harith : n + 1 + j = n + (j + 1) := by omega
            rw [harith] at hh
            simpa using hh

/-- On all-valid input items the enumerate-and-filter loop skips nothing
and its output length equals the input length. -/
theorem enrich_filterMap_length (kw b d : String) (D : Date) (em : Nat → String)
    (rnd : Nat → Nat) :
    ∀ (items : List RawItem) (n : Nat),
      (∀ it ∈ items, it.title.isSome ∧ it.img.isSome) →
      ((items.enumFrom n).filterMap
        (fun p => enrichItem kw b d D em rnd p.1 p.2)).length = items.length := by
  intro items
  induction items with
  | nil => intro n _; rfl
  | cons x xs ih =>
      intro n hv
      obtain ⟨ht, hg⟩ := hv x (List.mem_cons_self x xs)
      rw [List.enumFrom_cons, List.filterMap_cons]
      cases he : enrichItem kw b d D em rnd n x with
      | none =>
          exfalso
          cases x with
          | mk xt xg =>
              cases xt with
              | none => simp at ht
              | some t0 =>
                  cases xg with
                  | none => simp at hg
                  | some g0 => simp [enrichItem] at he
      | some r0 =>
          simp only [he, List.length_cons]
          rw [ih (n + 1) fun it hit => hv it (List.mem_cons_of_mem x hit)]

/-- On all-valid input items, the record at output position i carries the
date offset n + i, where n is the loop index of the first item. -/
theorem enrich_filterMap_getD (kw b d : String) (D : Date) (em : Nat → String)
    (rnd : Nat → Nat) :
    ∀ (items : List RawItem) (n i : Nat),
      (∀ it ∈ items, it.title.isSome ∧ it.img.isSome) →
      i < items.length →
      (((items.enumFrom n).filterMap
        (fun p => enrichItem kw b d D em rnd p.1 p.2)).getD i emptyRecord).scheduled_date =
        fmtDate (addDays D (n + i)) := by
  intro items
  induction items with
  | nil => intro n i _ hi; simp at hi
  | cons x xs ih =>
      intro n i hv hi
      obtain ⟨ht, hg⟩ := hv x (List.mem_cons_self x xs)
      rw [List.enumFrom_cons, List.filterMap_cons]
      cases he : enrichItem kw b d D em rnd n x with
      | none =>
          exfalso
          cases x with
          | mk xt xg =>
              cases xt with
              | none => simp at ht
              | some t0 =>
                  cases xg with
                  | none => simp at hg
                  | some g0 => simp [enrichItem] at he
      | some r0 =>
          simp only [he]
          match i with
          | 0 => simpa using enrichItem_date kw b d D em rnd n x r0 he
          | Nat.succ i0 =>
              have htail := ih (n + 1) i0
                (fun it hit => hv it (List.mem_cons_of_mem x hit)) (by simpa using hi)
              have harith : n + 1 + i0 = n + (i0 + 1) := by omega
              rw [harith] at htail
              simpa using htail

/-! ## Claim C2: scheduled dates follow the original loop index -/

/-- C2: every record the enricher emits carries scheduled_date equal to
the start date plus its original loop index over the input (so a skipped
candidate does not re-number later dates), and when no candidate is
skipped the record at output position i has scheduled_date equal to the
start date plus i days. -/
theorem c2_scheduled_dates (results : List RawItem) (kw b d : String) (D : Date)
    (em : Nat → String) (rnd : Nat → Nat) (l : List Record)
    (h : process_data results kw b d D em rnd = some l) :
    (∀ r ∈ l, ∃ j, ∃ hj : j < results.length,
        enrichItem kw b d D em rnd j (results.get ⟨j, hj⟩) = some r ∧
        r.scheduled_date = fmtDate (addDays D j)) ∧
    ((∀ it ∈ results, it.title.isSome ∧ it.img.isSome) →
      ∀ i, i < l.length →
        (l.getD i emptyRecord).scheduled_date = fmtDate (addDays D i)) := by
  have hl : l = (results.enumFrom 0).filterMap
      (fun p => enrichItem kw b d D em rnd p.1 p.2) := by
    unfold process_data at h
    split at h
    · simp at h
    · injection h with h2
      exact h2.symm
  subst hl
  constructor
  · intro r hr
    obtain ⟨j, hj, hje⟩ := enrich_filterMap_mem kw b d D em rnd results 0 r hr
    rw [Nat.zero_add] at hje
    exact ⟨j, hj, hje, enrichItem_date kw b d D em rnd j _ r hje⟩
  · intro hv i hi
    have hlen := enrich_filterMap_length kw b d D em rnd results 0 hv
    have hi' : i < results.length := by omega
    have hd := enrich_filterMap_getD kw b d D em rnd results 0 i hv hi'
    simpa using hd

/-- Witness items for C2: two valid candidates. -/
def rawPair : List RawItem :=
  [⟨some "first", some "https://u"⟩, ⟨some "second", some "https://v"⟩]

/-- Witness for C2: the second emitted record is dated one day after the
start date. -/
theorem c2_scheduled_dates_witness :
    (((process_data rawPair "k" "b" "d.com" ⟨2024, 1, 1⟩ (fun _ => "") (fun _ => 7)).getD
      []).getD 1 emptyRecord).scheduled_date = fmtDate (addDays ⟨2024, 1, 1⟩ 1) :=
  (c2_scheduled_dates rawPair "k" "b" "d.com" ⟨2024, 1, 1⟩ (fun _ => "") (fun _ => 7)
      ((process_data rawPair "k" "b" "d.com" ⟨2024, 1, 1⟩ (fun _ => "") (fun _ => 7)).getD [])
      (by decide)).2 (by decide) 1 (by decide)

/-! ## Helper lemmas for the end-to-end scenario -/

/-- Every scenario candidate has both keys present. -/
theorem candidates450_valid : ∀ it ∈ candidates450, it.title.isSome ∧ it.img.isSome := by
  intro it hit
  simp only [candidates450, List.mem_map] at hit
  obtain ⟨i, _, rfl⟩ := hit
  exact ⟨rfl, rfl⟩

/-- There are 450 scenario candidates. -/
theorem candidates450_length : candidates450.length = 450 := by
  simp [candidates450]

/-- The scenario record list is the enumerate-and-filter loop output. -/
theorem records450_eq : records450 = (candidates450.enumFrom 0).filterMap
    (fun p => enrichItem "home decor" "decor board" "example.com" ⟨2024, 1, 1⟩
      (fun _ => "") (fun _ => 7) p.1 p.2) := by
  have hne : candidates450.isEmpty = false := rfl
  simp only [records450, process_data, hne, Bool.false_eq_true, if_false, Option.getD_some]
  rfl

/-- The scenario produces 450 records (no candidate is skipped). -/
theorem records450_length : records450.length = 450 := by
  rw [records450_eq,
    enrich_filterMap_length "home decor" "decor board" "example.com" ⟨2024, 1, 1⟩
      (fun _ => "") (fun _ => 7) candidates450 0 candidates450_valid,
    candidates450_length]

/-- The scenario record at position i is dated i days after 2024-01-01. -/
theorem records450_date (i : Nat) (hi : i < 450) :
    (records450.getD i emptyRecord).scheduled_date =
      fmtDate (addDays ⟨2024, 1, 1⟩ i) := by
  rw [records450_eq]
  have h := enrich_filterMap_getD "home decor" "decor board" "example.com" ⟨2024, 1, 1⟩
    (fun _ => "") (fun _ => 7) candidates450 0 i candidates450_valid
    (by rw [candidates450_length]; exact hi)
  simpa using h

/-- Day 449 of the scenario, computed in bounded steps. -/
theorem addDays449 : addDays ⟨2024, 1, 1⟩ 449 = ⟨2025, 3, 25⟩ := by
  have hsplit : addDays ⟨2024, 1, 1⟩ 449 =
      addDays (addDays (addDays (addDays (addDays ⟨2024, 1, 1⟩ 100) 100) 100) 100) 49 := by
    show nextDay^[449] _ = _
    rw [show (449 : Nat) = 49 + (100 + (100 + (100 + 100))) from rfl]
    rw [Function.iterate_add_apply, Function.iterate_add_apply, Function.iterate_add_apply,
        Function.iterate_add_apply]
    rfl
  rw [hsplit]
  rw [show addDays ⟨2024, 1, 1⟩ 100 = ⟨2024, 4, 10⟩ from by decide]
  rw [show addDays ⟨2024, 4, 10⟩ 100 = ⟨2024, 7, 19⟩ from by decide]
  rw [show addDays ⟨2024, 7, 19⟩ 100 = ⟨2024, 10, 27⟩ from by decide]
  rw [show addDays ⟨2024, 10, 27⟩ 100 = ⟨2025, 2, 4⟩ from by decide]
  decide

/-- The first scenario record is dated at the start date. -/
theorem records450_date0 :
    (records450.getD 0 emptyRecord).scheduled_date = "2024-01-01" := by
  rw [records450_date 0 (by omega)]
  decide

/-- The last scenario record is dated 2025-03-25. -/
theorem records450_date449 :
    (records450.getD 449 emptyRecord).scheduled_date = "2025-03-25" := by
  rw [records450_date 449 (by omega), addDays449]
  decide

/-- The scenario chunking yields exactly three chunks. -/
theorem records450_chunks :
    chunkList records450 200 =
      [records450.take 200, (records450.drop 200).take 200,
        (records450.drop 200).drop 200] := by
  have hlen := records450_length
  have h1 : records450 ≠ [] := by
    intro h
    rw [h] at hlen
    simp at hlen
  have h2 : records450.drop 200 ≠ [] := by
    intro h
    have hc := congrArg List.length h
    rw [List.length_drop, hlen] at hc
    simp at hc
  have h3 : (records450.drop 200).drop 200 ≠ [] := by
    intro h
    have hc := congrArg List.length h
    rw [List.length_drop, List.length_drop, hlen] at hc
    simp at hc
  have h4 : ((records450.drop 200).drop 200).length ≤ 200 := by
    rw [List.length_drop, List.length_drop, hlen]
    omega
  rw [chunkList_cons records450 200 h1 (by omega),
      chunkList_cons (records450.drop 200) 200 h2 (by omega),
      chunkList_single ((records450.drop 200).drop 200) 200 h3 h4]

/-! ## Claim C3: end-to-end scenario -/

/-- C3 counterexample: in the end-to-end scenario the record at position
449 is not dated 2024-12-15 as claimed (2024-01-01 plus 449 days is
2025-03-25; 2024-12-15 is only 349 days after the start date). -/
theorem c3_counterexample :
    (records450.getD 449 emptyRecord).scheduled_date ≠ "2024-12-15" := by
  rw [records450_date449]
  decide

/-- C3 amended: 450 valid candidates with keyword "home decor", start
date 2024-01-01 and chunk size 200 yield exactly 3 output artifacts of
200, 200 and 50 records; record 0 is dated 2024-01-01 and record 449 is
dated 2025-03-25. -/
theorem c3_scenario :
    records450.length = 450 ∧
    save_csv_chunks records450 200 = 3 ∧
    (chunkList records450 200).map List.length = [200, 200, 50] ∧
    (records450.getD 0 emptyRecord).scheduled_date = "2024-01-01" ∧
    (records450.getD 449 emptyRecord).scheduled_date = "2025-03-25" := by
  refine ⟨records450_length, ?_, ?_, records450_date0, records450_date449⟩
  · unfold save_csv_chunks
    rw [records450_chunks]
    rfl
  · rw [records450_chunks]
    simp only [List.map_cons, List.map_nil, List.length_take, List.length_drop,
      records450_length]
    decide

/-! ## Helper lemmas about the run-level fallback -/

/-- Every placeholder sample item has both keys present. -/
theorem sample_results_valid (kw : String) :
    ∀ it ∈ sample_results kw, it.title.isSome ∧ it.img.isSome := by
  intro it hit
  simp only [sample_results, List.mem_map] at hit
  obtain ⟨i, _, rfl⟩ := hit
  exact ⟨rfl, rfl⟩

/-- There are 10 placeholder sample items. -/
theorem sample_results_length (kw : String) : (sample_results kw).length = 10 := by
  simp [sample_results]

/-- The enricher signals no-input (returns None) exactly on empty input. -/
theorem process_data_none_iff (results : List RawItem) (kw b d : String) (D : Date)
    (em : Nat → String) (rnd : Nat → Nat) :
    process_data results kw b d D em rnd = none ↔ results = [] := by
  cases results with
  | nil => simp [process_data]
  | cons x xs => simp [process_data]

/-- With a transport that fails on every page, main substitutes the ten
placeholder records and writes exactly one chunk. -/
theorem runArtifacts_allErr (kw b d : String) (D : Date) (em : Nat → String)
    (rnd : Nat → Nat) (pagesArg rowsArg : Nat) (fetch : Nat → FetchResult)
    (hf : ∀ p, fetch p = FetchResult.netError) :
    runArtifacts kw b d D fetch pagesArg rowsArg em rnd = 1 := by
  have hscr : (get_pinterest_pins kw fetch (max 10 (min pagesArg 50))).1 = [] :=
    collectAux_allErr kw fetch hf (List.range' 1 (max 10 (min pagesArg 50))) []
  have hne : (sample_results kw).isEmpty = false := rfl
  have hdata := enrich_filterMap_length kw b d D em rnd (sample_results kw) 0
    (sample_results_valid kw)
  rw [sample_results_length] at hdata
  have hpd : process_data (sample_results kw) kw b d D em rnd =
      some (((sample_results kw).enumFrom 0).filterMap
        (fun p => enrichItem kw b d D em rnd p.1 p.2)) := by
    simp only [process_data, hne, Bool.false_eq_true, if_false]
    rfl
  have hdne : ((sample_results kw).enumFrom 0).filterMap
      (fun p => enrichItem kw b d D em rnd p.1 p.2) ≠ [] := by
    intro h
    rw [h] at hdata
    simp at hdata
  have hdem : (((sample_results kw).enumFrom 0).filterMap
      (fun p => enrichItem kw b d D em rnd p.1 p.2)).isEmpty = false := by
    cases hd : ((sample_results kw).enumFrom 0).filterMap
        (fun p => enrichItem kw b d D em rnd p.1 p.2) with
    | nil => exact absurd hd hdne
    | cons r rs => rfl
  have hchunk := chunkList_single
    (((sample_results kw).enumFrom 0).filterMap
      (fun p => enrichItem kw b d D em rnd p.1 p.2))
    (max 50 (min rowsArg 1000)) hdne
    (by rw [hdata]; exact le_trans (by omega) (Nat.le_max_left 50 (min rowsArg 1000)))
  simp only [runArtifacts, hscr, List.isEmpty_nil, if_true, hpd, hdem,
    Bool.false_eq_true, if_false, save_csv_chunks, hchunk, List.length_singleton]

/-! ## Claim C9: empty collection, NoInputData, and output artifacts -/

/-- C9 counterexample: with zero candidates collected across all pages the
run still produces an output artifact (main substitutes ten placeholder
records before enrichment), contradicting the claim that it produces
none. -/
theorem c9_counterexample :
    runArtifacts "k" "b" "d.com" ⟨2024, 1, 1⟩ (fun _ => FetchResult.netError) 30 200
      (fun _ => "") (fun _ => 7) ≠ 0 := by
  rw [runArtifacts_allErr "k" "b" "d.com" ⟨2024, 1, 1⟩ (fun _ => "") (fun _ => 7) 30 200
    (fun _ => FetchResult.netError) (fun _ => rfl)]
  omega

/-- C9 amended: the enricher signals NoInputData (returns None) exactly
when its input candidate list is empty; but when zero candidates are
collected across all pages, main substitutes ten placeholder records, so
the enricher never receives empty input and the run produces exactly one
output artifact rather than none. -/
theorem c9_no_input (kw b d : String) (D : Date) (em : Nat → String) (rnd : Nat → Nat)
    (pagesArg rowsArg : Nat) (fetch : Nat → FetchResult)
    (hf : ∀ p, fetch p = FetchResult.netError) :
    (∀ results, process_data results kw b d D em rnd = none ↔ results = []) ∧
    runArtifacts kw b d D fetch pagesArg rowsArg em rnd = 1 :=
  ⟨fun results => process_data_none_iff results kw b d D em rnd,
   runArtifacts_allErr kw b d D em rnd pagesArg rowsArg fetch hf⟩

/-- Witness for C9 amended at a concrete all-failing transport. -/
theorem c9_no_input_witness :
    runArtifacts "kw" "board" "site.com" ⟨2025, 6, 1⟩ (fun _ => FetchResult.netError) 10 100
      (fun _ => "x") (fun _ => 3) = 1 :=
  (c9_no_input "kw" "board" "site.com" ⟨2025, 6, 1⟩ (fun _ => "x") (fun _ => 3) 10 100
    (fun _ => FetchResult.netError) (fun _ => rfl)).2

/-! ## Claim C4: every returned candidate has a valid image reference -/

/-- C4: every candidate returned by the extractor carries a non-empty
image reference starting with "http" or "//"; a raw match without such a
reference is never included (the guard of lines 143-148). -/
theorem c4_image_guard (soup : NodeList) (kw : String) (rc : Nat) (item : RawItem)
    (h : item ∈ extract soup kw rc) :
    ∃ img, item.img = some img ∧ img ≠ "" ∧
      (strStartsWith img "http" = true ∨ strStartsWith img "//" = true) := by
  unfold extract at h
  obtain ⟨p, _, hp⟩ := List.mem_filterMap.mp h
  simp only [pinToCandidate] at hp
  split at hp
  · rename_i hcond
    injection hp with hp
    subst hp
    exact ⟨_, rfl, hcond.1, hcond.2⟩
  · exact absurd hp (by simp)

/-- A one-element page for the C4 witness. -/
def soupOne : NodeList :=
  NodeList.cons (Node.elem Tag.img
    { emptyAttrs with src := some "https://img.example/p.jpg", alt := some "nice" }
    NodeList.nil) NodeList.nil

/-- Witness for C4 at a concrete page and candidate. -/
theorem c4_image_guard_witness :
    ∃ img, (⟨some "nice", some "https://img.example/p.jpg"⟩ : RawItem).img = some img ∧
      img ≠ "" ∧ (strStartsWith img "http" = true ∨ strStartsWith img "//" = true) :=
  c4_image_guard soupOne "k" 0 ⟨some "nice", some "https://img.example/p.jpg"⟩ (by decide)

/-! ## Claim C10: synthesized titles -/

/-- C10: the extractor processes the page's deduplicated matches by
0-based local position, and a match whose resolved title is empty (no
alt text, no nested image title, no text excerpt) and whose image
reference passes the guard is emitted with the synthesized title
"{keyword} idea {running_count + i + 1}", i.e. the accumulated total plus
the match's 1-based position on the page. -/
theorem c10_synth_title (soup : NodeList) (kw : String) (rc : Nat) :
    extract soup kw rc = ((dedupBySer (stratPins soup)).enum).filterMap
      (fun p => pinToCandidate kw rc p.1 p.2) ∧
    (∀ i pin img, extractTitleImg pin = ("", img) → img ≠ "" →
      (strStartsWith img "http" = true ∨ strStartsWith img "//" = true) →
      pinToCandidate kw rc i pin =
        some ⟨some (kw ++ " idea " ++ toString (rc + i + 1)), some img⟩) := by
  refine ⟨rfl, ?_⟩
  intro i pin img he hne hpre
  simp only [pinToCandidate, he]
  rw [if_pos ⟨hne, hpre⟩]
  simp [finalTitle]

/-- A titleless img pin for the C10 witness. -/
def pinHttp : Node :=
  Node.elem Tag.img { emptyAttrs with src := some "https://x/y.png" } NodeList.nil

/-- Witness for C10: a titleless match at page position 2 with running
count 3 is titled "cats idea 6". -/
theorem c10_synth_title_witness :
    pinToCandidate "cats" 3 2 pinHttp =
      some ⟨some ("cats" ++ " idea " ++ toString (3 + 2 + 1)), some "https://x/y.png"⟩ :=
  (c10_synth_title NodeList.nil "cats" 3).2 2 pinHttp "https://x/y.png" (by decide)
    (by decide) (Or.inl (by decide))

/-! ## Helper lemmas about deduplication -/

/-- The seen-set loop equals the spec-side first-seen filter, given that
the seen set holds exactly the serializations of the previous matches. -/
theorem dedupAux_eq_firstSeenFrom :
    ∀ (l : List Node) (seen : List String) (prev : List Node),
      (∀ s, s ∈ seen ↔ ∃ y ∈ prev, serialize y = s) →
      dedupAux seen l = firstSeenFrom prev l := by
  intro l
  induction l with
  | nil => intro seen prev _; rfl
  | cons x xs ih =>
      intro seen prev h
      by_cases hx : serialize x ∈ seen
      · rw [dedupAux, if_pos hx, firstSeenFrom, if_pos ((h (serialize x)).mp hx)]
        apply ih
        intro s
        constructor
        · intro hs
          obtain ⟨y, hy, he⟩ := (h s).mp hs
          exact ⟨y, List.mem_append_left _ hy, he⟩
        · rintro ⟨y, hy, he⟩
          rcases List.mem_append.mp hy with hy | hy
          · exact (h s).mpr ⟨y, hy, he⟩
          · rw [List.mem_singleton] at hy
            subst hy
            rw [← he]
            exact hx
      · rw [dedupAux, if_neg hx, firstSeenFrom,
          if_neg (fun hc => hx ((h (serialize x)).mpr hc))]
        congr 1
        apply ih
        intro s
        simp only [List.mem_cons, List.mem_append, List.mem_singleton]
        constructor
        · rintro (hs | hs)
          · exact ⟨x, Or.inr (Or.inl rfl), hs.symm⟩
          · obtain ⟨y, hy, he⟩ := (h s).mp hs
            exact ⟨y, Or.inl hy, he⟩
        · rintro ⟨y, hy | hy | hy, he⟩
          · exact Or.inr ((h s).mpr ⟨y, hy, he⟩)
          · subst hy
            exact Or.inl he.symm
          · simp at hy

/-- The loop output never repeats a serialization and avoids the seen set. -/
theorem dedupAux_nodup :
    ∀ (l : List Node) (seen : List String),
      ((dedupAux seen l).map serialize).Nodup ∧
      ∀ y ∈ dedupAux seen l, serialize y ∉ seen := by
  intro l
  induction l with
  | nil => intro seen; exact ⟨List.nodup_nil, by simp [dedupAux]⟩
  | cons x xs ih =>
      intro seen
      by_cases hx : serialize x ∈ seen
      · rw [dedupAux, if_pos hx]
        exact ih seen
      · rw [dedupAux, if_neg hx]
        obtain ⟨hnd, hns⟩ := ih (serialize x :: seen)
        refine ⟨?_, ?_⟩
        · rw [List.map_cons, List.nodup_cons]
          refine ⟨fun hc => ?_, hnd⟩
          obtain ⟨y, hy, he⟩ := List.mem_map.mp hc
          exact hns y hy (by rw [he]; exact List.mem_cons_self _ _)
        · intro y hy
          rcases List.mem_cons.mp hy with h | h
          · subst h
            exact hx
          · exact fun hc => hns y h (List.mem_cons_of_mem _ hc)

/-- Every input match has a representative (same serialization) in the
loop output, unless its serialization was already seen. -/
theorem dedupAux_complete :
    ∀ (l : List Node) (seen : List String) (x : Node), x ∈ l →
      (∃ y ∈ dedupAux seen l, serialize y = serialize x) ∨ serialize x ∈ seen := by
  intro l
  induction l with
  | nil => intro _ _ h; simp at h
  | cons z zs ih =>
      intro seen x hx
      by_cases hz : serialize z ∈ seen
      · rw [dedupAux, if_pos hz]
        rcases List.mem_cons.mp hx with h | h
        · exact Or.inr (by rw [h]; exact hz)
        · exact ih seen x h
      · rw [dedupAux, if_neg hz]
        rcases List.mem_cons.mp hx with h | h
        · exact Or.inl ⟨z, List.mem_cons_self _ _, by rw [h]⟩
        · rcases ih (serialize z :: seen) x h with ⟨y, hy, he⟩ | hs
          · exact Or.inl ⟨y, List.mem_cons_of_mem _ hy, he⟩
          · rcases List.mem_cons.mp hs with he | hs2
            · exact Or.inl ⟨z, List.mem_cons_self _ _, he.symm⟩
            · exact Or.inr hs2

/-- An img element with a source attribute and nothing else. -/
def imgNode (u : String) : Node :=
  Node.elem Tag.img { emptyAttrs with src := some u } NodeList.nil

/-! ## Claim C5: deduplication by serialized representation -/

/-- C5: the extractor's deduplication treats two raw matches as duplicates
exactly when their serialized representations are identical strings,
keeping the first occurrence in first-seen order over the concatenation of
the four strategies' findings (strategy 1 before 2 before 3 before 4): the
seen-set loop equals the spec-side first-seen filter, the output never
repeats a serialization, every input match keeps exactly one
representative, and a page holding the same element twice yields exactly
one candidate for it. -/
theorem c5_dedup_first_seen :
    (∀ l : List Node, dedupBySer l = firstSeenFilter l) ∧
    (∀ l : List Node, ((dedupBySer l).map serialize).Nodup) ∧
    (∀ (l : List Node) (x : Node), x ∈ l →
      ∃ y ∈ dedupBySer l, serialize y = serialize x) ∧
    (∀ (soup : NodeList) (kw : String) (rc : Nat),
      extract soup kw rc = ((firstSeenFilter (stratPins soup)).enum).filterMap
        fun p => pinToCandidate kw rc p.1 p.2) ∧
    (∀ (kw u : String) (rc : Nat), strStartsWith u "http" = true →
      extract (NodeList.cons (imgNode u) (NodeList.cons (imgNode u) NodeList.nil)) kw rc =
        [⟨some (kw ++ " idea " ++ toString (rc + 1)), some u⟩]) := by
  have hfs : ∀ l : List Node, dedupBySer l = firstSeenFilter l := fun l =>
    dedupAux_eq_firstSeenFrom l [] [] (by simp)
  refine ⟨hfs, fun l => (dedupAux_nodup l []).1, ?_, ?_, ?_⟩
  · intro l x hx
    rcases dedupAux_complete l [] x hx with h | h
    · exact h
    · simp at h
  · intro soup kw rc
    rw [extract, dedupBySer, dedupAux_eq_firstSeenFrom (stratPins soup) [] [] (by simp)]
    rfl
  · intro kw u rc hu
    have hne : u ≠ "" := by
      intro he
      rw [he] at hu
      exact absurd hu (by decide)
    have hstrat : stratPins
        (NodeList.cons (imgNode u) (NodeList.cons (imgNode u) NodeList.nil)) =
        [imgNode u, imgNode u] := rfl
    have hdedup : dedupBySer [imgNode u, imgNode u] = [imgNode u] := by
      rw [dedupBySer, dedupAux, if_neg (List.not_mem_nil _), dedupAux,
        if_pos (List.mem_cons_self _ _), dedupAux]
    have hpin : pinToCandidate kw rc 0 (imgNode u) =
        some ⟨some (kw ++ " idea " ++ toString (rc + 1)), some u⟩ := by
      have hext : extractTitleImg (imgNode u) = ("", u) := rfl
      simp only [pinToCandidate, hext]
      rw [if_pos ⟨hne, Or.inl hu⟩]
      simp [finalTitle]
    rw [extract, hstrat, hdedup]
    show ([(0, imgNode u)].filterMap fun p => pinToCandidate kw rc p.1 p.2) = _
    simp only [List.filterMap_cons, List.filterMap_nil, hpin]

/-- Witness for C5: a page holding one img element twice yields exactly
one candidate for it. -/
theorem c5_dedup_first_seen_witness :
    extract (NodeList.cons (imgNode "https://p/q.jpg")
        (NodeList.cons (imgNode "https://p/q.jpg") NodeList.nil)) "decor" 5 =
      [⟨some ("decor" ++ " idea " ++ toString (5 + 1)), some "https://p/q.jpg"⟩] :=
  c5_dedup_first_seen.2.2.2.2 "decor" "https://p/q.jpg" 5 (by decide)
